import Mathlib

/-!
Verification of the Keppel container-image registry against its
natural-language specification.

Each section embeds one part of the Go source as executable Lean
definitions (pure functions over explicit state; fallible code returns
`Except`/`Option`), followed by theorems that settle the claims about it.
-/

set_option linter.unusedVariables false

namespace Keppel

/-! ## Duration (internal/keppel/duration.go)

`Duration` is Go's `time.Duration`, an `int64` count of nanoseconds; we
embed it as `Int` (no arithmetic in this code can overflow: marshalling
only divides, and unmarshalling a marshalled value reproduces the input
exactly). The JSON object `durationObj` is embedded structurally; the
byte-level JSON encoding of that two-field struct is handled by Go's
`encoding/json` and is outside the logic under test. -/

/-- The JSON shape `{"value": ..., "unit": ...}` used by type Duration. -/
structure DurationObj where
  value : Int
  unit : String
deriving DecidableEq, Repr

/-- The unit table from duration.go, ordered from big to small;
lengths are in nanoseconds exactly as `time.Hour` etc. expand to. -/
def durationUnits : List (String × Int) :=
  [("y", 365 * 24 * 3600 * 1000000000),
   ("w", 7 * 24 * 3600 * 1000000000),
   ("d", 24 * 3600 * 1000000000),
   ("h", 3600 * 1000000000),
   ("m", 60 * 1000000000),
   ("s", 1000000000)]

/-- `Duration.MarshalJSON`: 0 is rendered as 0 seconds; otherwise the
first (hence largest) unit with `d % unit.Length == 0` is used; if no
unit divides evenly, an error is returned. Go's `%` and `/` on int64 are
truncated, i.e. `Int.tmod` and `Int.tdiv`. -/
def durationMarshalJSON (d : Int) : Except String DurationObj :=
  if d = 0 then .ok ⟨0, "s"⟩
  else
    match durationUnits.find? (fun u => d.tmod u.2 == 0) with
    | some u => .ok ⟨d.tdiv u.2, u.1⟩
    | none => .error "duration is not a multiple of 1 second"

/-- `Duration.UnmarshalJSON`: looks up the unit by name and multiplies. -/
def durationUnmarshalJSON (obj : DurationObj) : Except String Int :=
  match durationUnits.find? (fun u => u.1 == obj.unit) with
  | some u => .ok (obj.value * u.2)
  | none => .error "unknown duration unit"

/-- Helper: a nonzero truncated remainder rules out divisibility. -/
lemma not_dvd_of_tmod_ne_zero {a b : Int} (h : a.tmod b ≠ 0) : ¬ b ∣ a :=
  fun hdvd => h (Int.tmod_eq_zero_of_dvd hdvd)

/-- C7 counterexample: the claim quantifies over every Duration, but for
`d` = 500 ms no unit in the table divides `d` evenly, so `MarshalJSON`
returns an error instead of serializing `d`; the claimed round-trip is
impossible for this input. -/
theorem C7_duration_counterexample :
    durationMarshalJSON 500000000 = .error "duration is not a multiple of 1 second" := rfl

/-- C7 (amended): for every Duration that is a whole multiple of one
second, MarshalJSON succeeds, picks the largest unit among y/w/d/h/m/s
that divides it evenly (with 0 rendered as 0 seconds), and UnmarshalJSON
applied to the result yields the original duration. -/
theorem C7_duration_roundtrip_amended (d : Int) (h : (1000000000 : Int) ∣ d) :
    ∃ obj, durationMarshalJSON d = .ok obj ∧ durationUnmarshalJSON obj = .ok d ∧
      (d = 0 → obj = ⟨0, "s"⟩) ∧
      (d ≠ 0 → ∃ u ∈ durationUnits, obj = ⟨d.tdiv u.2, u.1⟩ ∧ u.2 ∣ d ∧
        ∀ v ∈ durationUnits, u.2 < v.2 → ¬ v.2 ∣ d) := by
  by_cases hd : d = 0
  · subst hd
    exact ⟨⟨0, "s"⟩, rfl, rfl, fun _ => rfl, fun h0 => absurd rfl h0⟩
  by_cases h1 : d.tmod 31536000000000000 = 0
  · have e1 : (d.tmod 31536000000000000 == 0) = true := by simp [h1]
    refine ⟨⟨d.tdiv 31536000000000000, "y"⟩, ?_, ?_, fun h0 => absurd h0 hd, fun _ => ?_⟩
    · simp only [durationMarshalJSON, durationUnits, List.find?, if_neg hd]
      norm_num [e1]
    · show Except.ok (d.tdiv 31536000000000000 * 31536000000000000) = Except.ok d
      rw [Int.tdiv_mul_cancel (Int.dvd_of_tmod_eq_zero h1)]
    · refine ⟨("y", 31536000000000000), by norm_num [durationUnits], rfl,
        Int.dvd_of_tmod_eq_zero h1, ?_⟩
      rintro v hv hlt
      simp only [durationUnits, List.mem_cons, List.not_mem_nil, or_false] at hv
      rcases hv with rfl|rfl|rfl|rfl|rfl|rfl <;> norm_num at hlt
  by_cases h2 : d.tmod 604800000000000 = 0
  · have e1 : (d.tmod 31536000000000000 == 0) = false := by simp [h1]
    have e2 : (d.tmod 604800000000000 == 0) = true := by simp [h2]
    refine ⟨⟨d.tdiv 604800000000000, "w"⟩, ?_, ?_, fun h0 => absurd h0 hd, fun _ => ?_⟩
    · simp only [durationMarshalJSON, durationUnits, List.find?, if_neg hd]
      norm_num [e1, e2]
    · show Except.ok (d.tdiv 604800000000000 * 604800000000000) = Except.ok d
      rw [Int.tdiv_mul_cancel (Int.dvd_of_tmod_eq_zero h2)]
    · refine ⟨("w", 604800000000000), by norm_num [durationUnits], rfl,
        Int.dvd_of_tmod_eq_zero h2, ?_⟩
      rintro v hv hlt
      simp only [durationUnits, List.mem_cons, List.not_mem_nil, or_false] at hv
      rcases hv with rfl|rfl|rfl|rfl|rfl|rfl
      · exact not_dvd_of_tmod_ne_zero h1
      all_goals norm_num at hlt
  by_cases h3 : d.tmod 86400000000000 = 0
  · have e1 : (d.tmod 31536000000000000 == 0) = false := by simp [h1]
    have e2 : (d.tmod 604800000000000 == 0) = false := by simp [h2]
    have e3 : (d.tmod 86400000000000 == 0) = true := by simp [h3]
    refine ⟨⟨d.tdiv 86400000000000, "d"⟩, ?_, ?_, fun h0 => absurd h0 hd, fun _ => ?_⟩
    · simp only [durationMarshalJSON, durationUnits, List.find?, if_neg hd]
      norm_num [e1, e2, e3]
    · show Except.ok (d.tdiv 86400000000000 * 86400000000000) = Except.ok d
      rw [Int.tdiv_mul_cancel (Int.dvd_of_tmod_eq_zero h3)]
    · refine ⟨("d", 86400000000000), by norm_num [durationUnits], rfl,
        Int.dvd_of_tmod_eq_zero h3, ?_⟩
      rintro v hv hlt
      simp only [durationUnits, List.mem_cons, List.not_mem_nil, or_false] at hv
      rcases hv with rfl|rfl|rfl|rfl|rfl|rfl
      · exact not_dvd_of_tmod_ne_zero h1
      · exact not_dvd_of_tmod_ne_zero h2
      all_goals norm_num at hlt
  by_cases h4 : d.tmod 3600000000000 = 0
  · have e1 : (d.tmod 31536000000000000 == 0) = false := by simp [h1]
    have e2 : (d.tmod 604800000000000 == 0) = false := by simp [h2]
    have e3 : (d.tmod 86400000000000 == 0) = false := by simp [h3]
    have e4 : (d.tmod 3600000000000 == 0) = true := by simp [h4]
    refine ⟨⟨d.tdiv 3600000000000, "h"⟩, ?_, ?_, fun h0 => absurd h0 hd, fun _ => ?_⟩
    · simp only [durationMarshalJSON, durationUnits, List.find?, if_neg hd]
      norm_num [e1, e2, e3, e4]
    · show Except.ok (d.tdiv 3600000000000 * 3600000000000) = Except.ok d
      rw [Int.tdiv_mul_cancel (Int.dvd_of_tmod_eq_zero h4)]
    · refine ⟨("h", 3600000000000), by norm_num [durationUnits], rfl,
        Int.dvd_of_tmod_eq_zero h4, ?_⟩
      rintro v hv hlt
      simp only [durationUnits, List.mem_cons, List.not_mem_nil, or_false] at hv
      rcases hv with rfl|rfl|rfl|rfl|rfl|rfl
      · exact not_dvd_of_tmod_ne_zero h1
      · exact not_dvd_of_tmod_ne_zero h2
      · exact not_dvd_of_tmod_ne_zero h3
      all_goals norm_num at hlt
  by_cases h5 : d.tmod 60000000000 = 0
  · have e1 : (d.tmod 31536000000000000 == 0) = false := by simp [h1]
    have e2 : (d.tmod 604800000000000 == 0) = false := by simp [h2]
    have e3 : (d.tmod 86400000000000 == 0) = false := by simp [h3]
    have e4 : (d.tmod 3600000000000 == 0) = false := by simp [h4]
    have e5 : (d.tmod 60000000000 == 0) = true := by simp [h5]
    refine ⟨⟨d.tdiv 60000000000, "m"⟩, ?_, ?_, fun h0 => absurd h0 hd, fun _ => ?_⟩
    · simp only [durationMarshalJSON, durationUnits, List.find?, if_neg hd]
      norm_num [e1, e2, e3, e4, e5]
    · show Except.ok (d.tdiv 60000000000 * 60000000000) = Except.ok d
      rw [Int.tdiv_mul_cancel (Int.dvd_of_tmod_eq_zero h5)]
    · refine ⟨("m", 60000000000), by norm_num [durationUnits], rfl,
        Int.dvd_of_tmod_eq_zero h5, ?_⟩
      rintro v hv hlt
      simp only [durationUnits, List.mem_cons, List.not_mem_nil, or_false] at hv
      rcases hv with rfl|rfl|rfl|rfl|rfl|rfl
      · exact not_dvd_of_tmod_ne_zero h1
      · exact not_dvd_of_tmod_ne_zero h2
      · exact not_dvd_of_tmod_ne_zero h3
      · exact not_dvd_of_tmod_ne_zero h4
      all_goals norm_num at hlt
  · have h6 : d.tmod 1000000000 = 0 := Int.tmod_eq_zero_of_dvd h
    have e1 : (d.tmod 31536000000000000 == 0) = false := by simp [h1]
    have e2 : (d.tmod 604800000000000 == 0) = false := by simp [h2]
    have e3 : (d.tmod 86400000000000 == 0) = false := by simp [h3]
    have e4 : (d.tmod 3600000000000 == 0) = false := by simp [h4]
    have e5 : (d.tmod 60000000000 == 0) = false := by simp [h5]
    have e6 : (d.tmod 1000000000 == 0) = true := by simp [h6]
    refine ⟨⟨d.tdiv 1000000000, "s"⟩, ?_, ?_, fun h0 => absurd h0 hd, fun _ => ?_⟩
    · simp only [durationMarshalJSON, durationUnits, List.find?, if_neg hd]
      norm_num [e1, e2, e3, e4, e5, e6]
    · show Except.ok (d.tdiv 1000000000 * 1000000000) = Except.ok d
      rw [Int.tdiv_mul_cancel (Int.dvd_of_tmod_eq_zero h6)]
    · refine ⟨("s", 1000000000), by norm_num [durationUnits], rfl,
        Int.dvd_of_tmod_eq_zero h6, ?_⟩
      rintro v hv hlt
      simp only [durationUnits, List.mem_cons, List.not_mem_nil, or_false] at hv
      rcases hv with rfl|rfl|rfl|rfl|rfl|rfl
      · exact not_dvd_of_tmod_ne_zero h1
      · exact not_dvd_of_tmod_ne_zero h2
      · exact not_dvd_of_tmod_ne_zero h3
      · exact not_dvd_of_tmod_ne_zero h4
      · exact not_dvd_of_tmod_ne_zero h5
      all_goals norm_num at hlt

/-- C7 witness: the amended round-trip theorem evaluated at one hour. -/
theorem C7_duration_witness :
    ∃ obj, durationMarshalJSON 3600000000000 = .ok obj ∧
      durationUnmarshalJSON obj = .ok 3600000000000 ∧
      ((3600000000000 : Int) = 0 → obj = ⟨0, "s"⟩) ∧
      ((3600000000000 : Int) ≠ 0 → ∃ u ∈ durationUnits,
        obj = ⟨(3600000000000 : Int).tdiv u.2, u.1⟩ ∧ u.2 ∣ (3600000000000 : Int) ∧
        ∀ v ∈ durationUnits, u.2 < v.2 → ¬ v.2 ∣ (3600000000000 : Int)) :=
  C7_duration_roundtrip_amended 3600000000000 (by norm_num)

/-! ## Chunked blob upload (internal/processor/accounts.go)

`Processor.AppendToBlob` with known input length delegates to
`foreachChunkWithKnownSize`, which splits the input into chunks of at
most `chunkSizeBytes` and invokes the per-chunk action at least once,
even for empty input. The action increments `upload.NumChunks`, adds the
chunk length to `upload.SizeBytes`, and calls the storage driver's
append with `(upload.NumChunks, chunkLengthBytes)`. We model the reader
by its byte count and record the sequence of storage-driver calls; the
storage driver is modeled as always succeeding (on a driver error the Go
code returns early, a path the claim does not describe). -/

/-- 500 MiB, written `500 << 20` in the Go source. -/
def chunkSizeBytes : Nat := 500 * 1024 * 1024

/-- The successive chunk lengths produced by the loop in
`foreachChunkWithKnownSize`: full chunks while more than `chunkSizeBytes`
remain, then one final chunk with whatever remains (possibly 0). -/
def chunksWithKnownSize (lengthBytes : Nat) : List Nat :=
  if h : lengthBytes > chunkSizeBytes then
    chunkSizeBytes :: chunksWithKnownSize (lengthBytes - chunkSizeBytes)
  else [lengthBytes]
termination_by lengthBytes
decreasing_by
  have hc : chunkSizeBytes = 524288000 := rfl
  omega

/-- The mutable fields of `models.Upload` that `AppendToBlob` updates. -/
structure Upload where
  sizeBytes : Nat
  numChunks : Nat
deriving DecidableEq, Repr

/-- The per-chunk action from `Processor.AppendToBlob` (known-length
case), folded over the chunk list; returns the updated upload and the
ordered list of storage-driver append calls `(chunkNumber, length)`. -/
def appendChunks (u : Upload) : List Nat → Upload × List (Nat × Nat)
  | [] => (u, [])
  | c :: rest =>
    let r := appendChunks ⟨u.sizeBytes + c, u.numChunks + 1⟩ rest
    (r.1, (u.numChunks + 1, c) :: r.2)

/-- `Processor.AppendToBlob` for an input of known length. -/
def AppendToBlobKnownSize (u : Upload) (lengthBytes : Nat) : Upload × List (Nat × Nat) :=
  appendChunks u (chunksWithKnownSize lengthBytes)

lemma chunksWithKnownSize_sum : ∀ L, (chunksWithKnownSize L).sum = L := by
  intro L
  induction L using Nat.strong_induction_on with
  | _ L ih =>
    have hc : chunkSizeBytes = 524288000 := rfl
    rw [chunksWithKnownSize]
    by_cases h : L > chunkSizeBytes
    · rw [dif_pos h, List.sum_cons, ih (L - chunkSizeBytes) (by omega)]
      omega
    · rw [dif_neg h]
      simp

lemma chunksWithKnownSize_length :
    ∀ L, (chunksWithKnownSize L).length = max 1 ((L + chunkSizeBytes - 1) / chunkSizeBytes) := by
  intro L
  induction L using Nat.strong_induction_on with
  | _ L ih =>
    have hc : chunkSizeBytes = 524288000 := rfl
    rw [chunksWithKnownSize]
    by_cases h : L > chunkSizeBytes
    · rw [dif_pos h, List.length_cons, ih (L - chunkSizeBytes) (by omega)]
      rw [hc] at h ⊢
      omega
    · rw [dif_neg h]
      rw [hc] at h ⊢
      simp
      omega

lemma chunksWithKnownSize_le : ∀ L, ∀ c ∈ chunksWithKnownSize L, c ≤ chunkSizeBytes := by
  intro L
  induction L using Nat.strong_induction_on with
  | _ L ih =>
    have hc : chunkSizeBytes = 524288000 := rfl
    rw [chunksWithKnownSize]
    by_cases h : L > chunkSizeBytes
    · rw [dif_pos h]
      intro c hcm
      rcases List.mem_cons.mp hcm with rfl | hm
      · exact le_refl _
      · exact ih (L - chunkSizeBytes) (by omega) c hm
    · rw [dif_neg h]
      intro c hcm
      rcases List.mem_cons.mp hcm with rfl | hm
      · omega
      · simp at hm

lemma appendChunks_spec : ∀ (l : List Nat) (u : Upload),
    (appendChunks u l).1 = ⟨u.sizeBytes + l.sum, u.numChunks + l.length⟩ ∧
    (appendChunks u l).2.map Prod.fst = List.range' (u.numChunks + 1) l.length ∧
    (appendChunks u l).2.map Prod.snd = l := by
  intro l
  induction l with
  | nil => intro u; simp [appendChunks]
  | cons c rest ih =>
    intro u
    obtain ⟨ih1, ih2, ih3⟩ := ih ⟨u.sizeBytes + c, u.numChunks + 1⟩
    refine ⟨?_, ?_, ?_⟩
    · simp [appendChunks, ih1]
      constructor <;> omega
    · simp [appendChunks, ih2, List.range'_succ]
    · simp [appendChunks, ih3]

/-- C8: for an input of known length `L` on a fresh upload, `AppendToBlob`
calls the storage driver's append action exactly `max 1 ⌈L / 500MiB⌉`
times, with consecutive chunk numbers starting at 1, every chunk at most
500 MiB, and `SizeBytes` increased by exactly `L`; an input of 0 bytes
still produces exactly one append call (chunk 1, length 0). -/
theorem C8_append_chunking :
    (∀ L : Nat,
      (AppendToBlobKnownSize ⟨0, 0⟩ L).2.length = max 1 ((L + chunkSizeBytes - 1) / chunkSizeBytes) ∧
      (AppendToBlobKnownSize ⟨0, 0⟩ L).2.map Prod.fst =
        List.range' 1 (AppendToBlobKnownSize ⟨0, 0⟩ L).2.length ∧
      (∀ call ∈ (AppendToBlobKnownSize ⟨0, 0⟩ L).2, call.2 ≤ chunkSizeBytes) ∧
      (AppendToBlobKnownSize ⟨0, 0⟩ L).1.sizeBytes = L ∧
      (AppendToBlobKnownSize ⟨0, 0⟩ L).1.numChunks = (AppendToBlobKnownSize ⟨0, 0⟩ L).2.length) ∧
    (AppendToBlobKnownSize ⟨0, 0⟩ 0).2 = [(1, 0)] := by
  have h0 : chunksWithKnownSize 0 = [0] := by
    rw [chunksWithKnownSize]
    rfl
  constructor
  · intro L
    obtain ⟨h1, h2, h3⟩ := appendChunks_spec (chunksWithKnownSize L) ⟨0, 0⟩
    have hlen : (AppendToBlobKnownSize ⟨0, 0⟩ L).2.length = (chunksWithKnownSize L).length := by
      rw [AppendToBlobKnownSize]
      have hl := congrArg List.length h3
      rw [List.length_map] at hl
      exact hl
    refine ⟨?_, ?_, ?_, ?_, ?_⟩
    · rw [hlen, chunksWithKnownSize_length]
    · rw [hlen, AppendToBlobKnownSize, h2]
    · intro call hcall
      have : call.2 ∈ (appendChunks ⟨0, 0⟩ (chunksWithKnownSize L)).2.map Prod.snd :=
        List.mem_map_of_mem Prod.snd hcall
      rw [h3] at this
      exact chunksWithKnownSize_le L _ this
    · rw [AppendToBlobKnownSize, h1]
      simp [chunksWithKnownSize_sum]
    · rw [hlen, AppendToBlobKnownSize, h1]
      simp
  · rw [AppendToBlobKnownSize, h0]
    rfl

/-! ## Blob replication (internal/processor/accounts.go, ReplicateBlob)

`ReplicateBlob` first inserts a `PendingBlob(account, digest)` lock row;
a duplicate-key failure (the row already exists) makes it return the
sentinel `ErrConcurrentReplication` without having touched the response
writer. After a successful insert it defers the deletion of that row, so
the row is removed on every subsequent return path. We model the
database state relevant to one `(account, digest)` key as a Boolean
"the PendingBlob row exists", and the external effects (peer client
construction, blob download from upstream, the local upload) as
environment-supplied outcomes. -/

/-- External outcomes consumed by one `ReplicateBlob` run. -/
structure ReplicationEnv where
  clientOk : Except Unit Unit
  downloadOk : Except Unit Nat
  uploadOk : Except Unit Unit
deriving Repr

/-- Result classification of a `ReplicateBlob` run. -/
inductive RepResult
  | concurrentReplication
  | otherError
  | success
deriving DecidableEq, Repr

/-- Observable outcome of `ReplicateBlob`: the `responseWasWritten`
return value, the error classification, and whether the `PendingBlob`
row for this `(account, digest)` exists afterwards. -/
structure RepOutcome where
  responseWasWritten : Bool
  result : RepResult
  pendingAfter : Bool
deriving DecidableEq, Repr

/-- `Processor.ReplicateBlob`, over the `PendingBlob` row state for the
replicated `(account, digest)` key. The duplicate-key check and the
follow-up `SELECT COUNT(*)` collapse to the row-exists flag; the
deferred `DELETE FROM pending_blobs` runs on every path after a
successful insert. -/
def ReplicateBlob (pendingBefore : Bool) (env : ReplicationEnv) : RepOutcome :=
  if pendingBefore then
    ⟨false, .concurrentReplication, true⟩
  else
    match env.clientOk with
    | .error _ => ⟨false, .otherError, false⟩
    | .ok _ =>
      match env.downloadOk with
      | .error _ => ⟨false, .otherError, false⟩
      | .ok _ =>
        match env.uploadOk with
        | .error _ => ⟨true, .otherError, false⟩
        | .ok _ => ⟨true, .success, false⟩

/-- C4: if a `PendingBlob` row for the same `(account, digest)` already
exists when `ReplicateBlob` starts, it returns `ErrConcurrentReplication`
without writing a response and leaves the other worker's row in place;
on every other path, success or failure, the row it inserted is deleted
before returning. -/
theorem C4_replicate_blob_locking (pendingBefore : Bool) (env : ReplicationEnv) :
    (pendingBefore = true →
      ReplicateBlob pendingBefore env = ⟨false, .concurrentReplication, true⟩) ∧
    (pendingBefore = false →
      (ReplicateBlob pendingBefore env).pendingAfter = false) := by
  constructor
  · intro h
    subst h
    rfl
  · intro h
    subst h
    rcases env with ⟨(_ | _), (_ | _), (_ | _)⟩ <;> rfl

/-- C4 witness: both branches of the theorem evaluated on concrete inputs. -/
theorem C4_replicate_blob_witness :
    ReplicateBlob true ⟨.ok (), .ok 42, .ok ()⟩ = ⟨false, .concurrentReplication, true⟩ ∧
    (ReplicateBlob false ⟨.ok (), .ok 42, .error ()⟩).pendingAfter = false :=
  ⟨(C4_replicate_blob_locking true ⟨.ok (), .ok 42, .ok ()⟩).1 rfl,
   (C4_replicate_blob_locking false ⟨.ok (), .ok 42, .error ()⟩).2 rfl⟩

/-! ## Reserved account names (internal/processor/accounts.go, CreateOrUpdateAccount)

`CreateOrUpdateAccount` rejects the empty name, names with the string
"keppel" at the start (HTTP 422), and names matched by the regular
expression `^v[0-9][1-9]*$` (HTTP 422), before anything touches the
database. Note the second character class of that regex is `[1-9]`, not
`[0-9]`. -/

/-- The regular expression `^v[0-9][1-9]*$` from `looksLikeAPIVersionRx`:
a `v`, one decimal digit, then zero or more digits from 1 to 9. -/
def looksLikeAPIVersion (s : String) : Bool :=
  match s.toList with
  | 'v' :: d :: rest => d.isDigit && rest.all (fun c => '1' ≤ c && c ≤ '9')
  | _ => false

/-- The pattern `v[0-9]+` named by the spec: a `v` followed by one or
more decimal digits. Stated from the spec's words, for comparison with
`looksLikeAPIVersion` which embeds the source's regex. -/
def specReservedVersionShape (s : String) : Bool :=
  match s.toList with
  | 'v' :: rest => !rest.isEmpty && rest.all Char.isDigit
  | _ => false

/-- How the name-validation gate at the top of `CreateOrUpdateAccount`
disposes of an account name. -/
inductive NameCheckResult
  | emptyName
  | reservedKeppelName
  | reservedVersionName
  | passed
deriving DecidableEq, Repr

/-- The name checks at the top of `CreateOrUpdateAccount`, in source
order: empty name, `strings.HasPrefix(name, "keppel")`, then the
`looksLikeAPIVersionRx` match. Only a name mapped to `passed` proceeds
to the rest of the function (and can lead to an account row insert). -/
def checkAccountName (name : String) : NameCheckResult :=
  if name = "" then .emptyName
  else if List.isPrefixOf "keppel".toList name.toList then .reservedKeppelName
  else if looksLikeAPIVersion name then .reservedVersionName
  else .passed

/-- C3: the name "v10" matches the spec's reserved pattern `v[0-9]+`,
but the gate in `CreateOrUpdateAccount` does not reject it (its regex
`^v[0-9][1-9]*$` refuses the digit 0 after the first position), so
creation proceeds past the reserved-name validation; names such as
"v1", "v12" and "keppel-api" are rejected as the claim describes. -/
theorem C3_reserved_names_eval :
    specReservedVersionShape "v10" = true ∧
    checkAccountName "v10" = .passed ∧
    checkAccountName "" = .emptyName ∧
    checkAccountName "keppel-api" = .reservedKeppelName ∧
    checkAccountName "v1" = .reservedVersionName ∧
    checkAccountName "v12" = .reservedVersionName ∧
    checkAccountName "library" = .passed := by
  refine ⟨rfl, rfl, rfl, by decide, rfl, rfl, by decide⟩

/-! ## Audiences and domain remapping (internal/auth)

`IdentifyAudience` maps the hostname of a request (or the `aud` claim of
a token) to an `Audience`; `Audience.Hostname` is its intended inverse.
The relevant parts of `keppel.Configuration` are the two public
hostnames. `models.IsAccountName` is not among the provided sources and
is modelled from the spec below. -/

/-- The two hostname fields of `keppel.Configuration` that audience
resolution reads. -/
structure KeppelConfiguration where
  apiPublicHostname : String
  anycastAPIPublicHostname : String
deriving DecidableEq, Repr

/-- An audience for which tokens can be issued: anycast or not, plus the
account name of a domain-remapped API ("" when not remapped). -/
structure Audience where
  isAnycast : Bool
  accountName : String
deriving DecidableEq, Repr

/-- A lowercase ASCII letter or digit. -/
def isLowerAlnum (c : Char) : Bool := ('a' ≤ c && c ≤ 'z') || ('0' ≤ c && c ≤ '9')

/-- Modelled from the spec: `models.IsAccountName` is missing from the
provided sources; per the spec (§3) account names have DNS-label shape,
which we model as: nonempty, only lowercase letters, digits and hyphens,
and neither starting nor ending with a hyphen. -/
def IsAccountName (s : String) : Bool :=
  match s.toList with
  | [] => false
  | c :: rest =>
    (c :: rest).all (fun ch => isLowerAlnum ch || ch == '-') &&
    isLowerAlnum c && isLowerAlnum ((c :: rest).getLast (by simp))

/-- Split a character list at its first '.', like `strings.SplitN(s, ".", 2)`;
`none` when there is no dot (Go returns a one-element slice then). -/
def splitFirstDotAux : List Char → Option (List Char × List Char)
  | [] => none
  | c :: rest =>
    if c = '.' then some ([], rest)
    else
      match splitFirstDotAux rest with
      | none => none
      | some (l, r) => some (c :: l, r)

/-- `strings.SplitN(hostname, ".", 2)` as used by `IdentifyAudience`:
`some (head, tail)` when the string contains a dot. -/
def splitN2 (s : String) : Option (String × String) :=
  match splitFirstDotAux s.toList with
  | none => none
  | some (l, r) => some (⟨l⟩, ⟨r⟩)

/-- Option 2 of `IdentifyAudience`: interpret the split hostname as a
domain-remapped API hostname `<account>.<well-known>`, falling back to
the default audience (the function's final return) otherwise. -/
def identifyRemapped (cfg : KeppelConfiguration) : Option (String × String) → Audience
  | some (head, tail) =>
    if head ≠ "" ∧ tail ≠ "" ∧ IsAccountName head then
      if tail = cfg.apiPublicHostname then ⟨false, head⟩
      else if tail = cfg.anycastAPIPublicHostname then ⟨true, head⟩
      else ⟨false, ""⟩
    else ⟨false, ""⟩
  | none => ⟨false, ""⟩

/-- `IdentifyAudience` from internal/auth: option 1 matches the whole
hostname against the two well-known hostnames (only when nonempty);
option 2 splits at the first dot and recognizes `<account>.<well-known>`;
everything else falls back to the default audience. -/
def IdentifyAudience (hostname : String) (cfg : KeppelConfiguration) : Audience :=
  if hostname ≠ "" ∧ hostname = cfg.apiPublicHostname then ⟨false, ""⟩
  else if hostname ≠ "" ∧ hostname = cfg.anycastAPIPublicHostname then ⟨true, ""⟩
  else identifyRemapped cfg (splitN2 hostname)

/-- `Audience.Hostname`: the hostname used as the token's `aud` value. -/
def Audience.Hostname (a : Audience) (cfg : KeppelConfiguration) : String :=
  let result := if a.isAnycast then cfg.anycastAPIPublicHostname else cfg.apiPublicHostname
  if a.accountName ≠ "" then a.accountName ++ "." ++ result else result

/-- `Audience.MapPeerHostname`: keeps domain-remapped requests remapped
when reverse-proxying to a peer. -/
def Audience.MapPeerHostname (a : Audience) (peerHostname : String) : String :=
  if a.accountName ≠ "" then a.accountName ++ "." ++ peerHostname else peerHostname

lemma no_dot_of_isAccountName {s : String} (h : IsAccountName s = true) :
    '.' ∉ s.toList := by
  unfold IsAccountName at h
  intro hm
  cases hl : s.toList with
  | nil => rw [hl] at hm; exact absurd hm (List.not_mem_nil '.')
  | cons c rest =>
    rw [hl] at h hm
    simp only [Bool.and_eq_true, List.all_eq_true] at h
    have := h.1.1 '.' hm
    simp [isLowerAlnum] at this

lemma splitFirstDotAux_append (l1 l2 : List Char) (h : '.' ∉ l1) :
    splitFirstDotAux (l1 ++ '.' :: l2) = some (l1, l2) := by
  induction l1 with
  | nil => simp [splitFirstDotAux]
  | cons c rest ih =>
    rw [List.cons_append, splitFirstDotAux]
    have hc : ¬ c = '.' := by
      intro hceq
      exact h (by rw [hceq]; exact List.mem_cons_self _ _)
    rw [if_neg hc, ih (fun hm => h (List.mem_cons_of_mem c hm))]

lemma data_ne_nil_of_ne_empty {s : String} (h : s ≠ "") : s.data ≠ [] := by
  intro h0
  apply h
  cases s
  simp_all

lemma splitN2_append (name tail : String) (hnd : '.' ∉ name.toList) :
    splitN2 (name ++ "." ++ tail) = some (name, tail) := by
  unfold splitN2
  have he : (name ++ "." ++ tail).toList = name.toList ++ '.' :: tail.toList := by
    show (name ++ "." ++ tail).data = name.data ++ '.' :: tail.data
    rw [String.data_append, String.data_append, List.append_assoc]
    rfl
  rw [he, splitFirstDotAux_append _ _ hnd]
  rfl

lemma append_dot_ne (name tail : String) (hn : name ≠ "") :
    name ++ "." ++ tail ≠ tail := by
  intro heq
  have hd := congrArg String.data heq
  rw [String.data_append, String.data_append] at hd
  have hlen := congrArg List.length hd
  simp at hlen
  have hpos : 0 < name.data.length := List.length_pos.mpr (data_ne_nil_of_ne_empty hn)
  omega

/-- C6 counterexample: the claim quantifies over every configuration and
every account name; with an anycast hostname that is not configured
(empty string), the anycast audience's hostname is "" and resolves back
to the default (non-anycast) audience, not to the original. -/
theorem C6_audience_counterexample :
    IdentifyAudience ((Audience.mk true "").Hostname ⟨"keppel.example.org", ""⟩)
        ⟨"keppel.example.org", ""⟩ ≠ Audience.mk true "" := by
  decide

/-- C6 (amended): audience resolution round-trips whenever the two
configured hostnames are nonempty and distinct, the audience's account
name is empty or a well-formed account name, and neither configured
hostname collides with the domain-remapped form of the other. -/
theorem C6_audience_roundtrip_amended (cfg : KeppelConfiguration) (a : Audience)
    (h1 : cfg.apiPublicHostname ≠ "")
    (h2 : cfg.anycastAPIPublicHostname ≠ "")
    (h3 : cfg.apiPublicHostname ≠ cfg.anycastAPIPublicHostname)
    (h4 : a.accountName = "" ∨ IsAccountName a.accountName = true)
    (h5 : a.accountName ≠ "" →
      a.accountName ++ "." ++ cfg.apiPublicHostname ≠ cfg.anycastAPIPublicHostname)
    (h6 : a.accountName ≠ "" →
      a.accountName ++ "." ++ cfg.anycastAPIPublicHostname ≠ cfg.apiPublicHostname) :
    IdentifyAudience (a.Hostname cfg) cfg = a := by
  obtain ⟨any, name⟩ := a
  by_cases hn : name = ""
  · subst hn
    cases any
    · have hh : (Audience.mk false "").Hostname cfg = cfg.apiPublicHostname := rfl
      rw [hh]
      unfold IdentifyAudience
      rw [if_pos ⟨h1, rfl⟩]
    · have hh : (Audience.mk true "").Hostname cfg = cfg.anycastAPIPublicHostname := rfl
      rw [hh]
      unfold IdentifyAudience
      rw [if_neg (fun hc => h3 hc.2.symm), if_pos ⟨h2, rfl⟩]
  · have hacc : IsAccountName name = true := by
      rcases h4 with h | h
      · exact absurd h hn
      · exact h
    have hnd : '.' ∉ name.toList := no_dot_of_isAccountName hacc
    cases any
    · have hh : (Audience.mk false name).Hostname cfg = name ++ "." ++ cfg.apiPublicHostname := by
        unfold Audience.Hostname
        simp [hn]
      rw [hh]
      unfold IdentifyAudience
      rw [if_neg (fun hc => append_dot_ne name cfg.apiPublicHostname hn hc.2)]
      rw [if_neg (fun hc => h5 hn hc.2)]
      rw [splitN2_append name cfg.apiPublicHostname hnd]
      show (if name ≠ "" ∧ cfg.apiPublicHostname ≠ "" ∧ IsAccountName name then
          if cfg.apiPublicHostname = cfg.apiPublicHostname then (⟨false, name⟩ : Audience)
          else if cfg.apiPublicHostname = cfg.anycastAPIPublicHostname then ⟨true, name⟩
          else ⟨false, ""⟩
        else ⟨false, ""⟩) = (⟨false, name⟩ : Audience)
      rw [if_pos ⟨hn, h1, hacc⟩, if_pos rfl]
    · have hh : (Audience.mk true name).Hostname cfg = name ++ "." ++ cfg.anycastAPIPublicHostname := by
        unfold Audience.Hostname
        simp [hn]
      rw [hh]
      unfold IdentifyAudience
      rw [if_neg (fun hc => h6 hn hc.2)]
      rw [if_neg (fun hc => append_dot_ne name cfg.anycastAPIPublicHostname hn hc.2)]
      rw [splitN2_append name cfg.anycastAPIPublicHostname hnd]
      show (if name ≠ "" ∧ cfg.anycastAPIPublicHostname ≠ "" ∧ IsAccountName name then
          if cfg.anycastAPIPublicHostname = cfg.apiPublicHostname then (⟨false, name⟩ : Audience)
          else if cfg.anycastAPIPublicHostname = cfg.anycastAPIPublicHostname then ⟨true, name⟩
          else ⟨false, ""⟩
        else ⟨false, ""⟩) = (⟨true, name⟩ : Audience)
      rw [if_pos ⟨hn, h2, hacc⟩, if_neg (fun hc => h3 hc.symm), if_pos rfl]

/-- C6 witness: the amended round-trip at a concrete configuration, for
the anycast domain-remapped audience of account "library". -/
theorem C6_audience_witness :
    IdentifyAudience ((Audience.mk true "library").Hostname
        ⟨"keppel.example.org", "anycast.example.org"⟩)
      ⟨"keppel.example.org", "anycast.example.org"⟩ = Audience.mk true "library" :=
  C6_audience_roundtrip_amended ⟨"keppel.example.org", "anycast.example.org"⟩
    ⟨true, "library"⟩ (by decide) (by decide) (by decide) (Or.inr (by decide))
    (fun _ => by decide) (fun _ => by decide)

/-! ## Anycast reverse-proxy and its loop protection

`Configuration.ReverseProxyAnycastRequestToPeer` builds the outgoing
request: it copies only the `Accept` and `Authorization` headers, sets
the header `X-Keppel-Forwarded-By` to the own public hostname, and sets
the query parameter `forwarded-by` (all other query parameters are kept).
`authapi.reverseProxyTokenReqToUpstream` asks the federation driver for
the primary's hostname and, unless its loop-protection check fires,
forwards the request there. We model requests structurally; header and
query collections are association lists with `Get` returning "" for a
missing key, matching `net/http` / `net/url` behavior. -/

/-- The parts of an HTTP request that the forwarding code reads or writes. -/
structure HttpRequest where
  method : String
  host : String
  path : String
  headers : List (String × String)
  query : List (String × String)
deriving DecidableEq, Repr

/-- `Values.Get` / `Header.Get`: first value for the key, "" if absent. -/
def getParam (l : List (String × String)) (k : String) : String :=
  match l.find? (fun p => p.1 == k) with
  | some p => p.2
  | none => ""

/-- `Values.Set` / `Header.Set`: replace any existing values for the key. -/
def setParam (l : List (String × String)) (k v : String) : List (String × String) :=
  (l.filter (fun p => !(p.1 == k))) ++ [(k, v)]

/-- The client-request headers that are forwarded; all others are discarded. -/
def reverseProxyHeaders : List String := ["Accept", "Authorization"]

/-- `Configuration.ReverseProxyAnycastRequestToPeer`, reduced to the
request it sends to the peer: same method and path, headers restricted
to `reverseProxyHeaders` plus the stamped `X-Keppel-Forwarded-By`, and
the original query plus the stamped `forwarded-by` parameter. -/
def ReverseProxyAnycastRequestToPeer (apiPublicHostname : String) (r : HttpRequest)
    (peerHostName : String) : HttpRequest :=
  { method := r.method
    host := peerHostName
    path := r.path
    headers := setParam
      (reverseProxyHeaders.filterMap
        (fun h => (r.headers.find? (fun p => p.1 == h)).map (fun p => (h, p.2))))
      "X-Keppel-Forwarded-By" apiPublicHostname
    query := setParam r.query "forwarded-by" apiPublicHostname }

/-- Outcome of `authapi.reverseProxyTokenReqToUpstream`. -/
inductive TokenReqOutcome
  | errored
  | blockedByLoopProtection
  | forwarded (req : HttpRequest)
deriving DecidableEq, Repr

/-- `authapi.reverseProxyTokenReqToUpstream`: resolve the primary via
the federation driver (whose result is environment-supplied), then apply
the loop-protection check — which reads the QUERY parameter named
"X-Keppel-Forwarded-By" — and otherwise reverse-proxy to the peer. -/
def reverseProxyTokenReqToUpstream (apiPublicHostname : String) (audience : Audience)
    (findPrimaryResult : Except Unit String) (r : HttpRequest) : TokenReqOutcome :=
  match findPrimaryResult with
  | .error _ => .errored
  | .ok primaryHostName =>
    if getParam r.query "X-Keppel-Forwarded-By" ≠ "" then .blockedByLoopProtection
    else .forwarded
      (ReverseProxyAnycastRequestToPeer apiPublicHostname r
        (audience.MapPeerHostname primaryHostName))

/-- An anycast token request as a client would send it to peer A. -/
def anycastTokenRequest : HttpRequest :=
  { method := "GET"
    host := "anycast.example.org"
    path := "/keppel/v1/auth"
    headers := [("Accept", "application/json")]
    query := [("service", "anycast.example.org"), ("scope", "repository:lib/app:pull")] }

/-- C2: peer A stamps the forwarded request with the header
`X-Keppel-Forwarded-By` (and the query parameter `forwarded-by`), yet
when that marked request reaches peer B — which believes peer A holds
the primary account — B's loop-protection check (reading the query
parameter named "X-Keppel-Forwarded-By", which no forwarder ever sets)
does not fire, and B forwards the request right back to A instead of
returning an error. -/
theorem C2_forwarding_loop_eval :
    getParam (ReverseProxyAnycastRequestToPeer "peer-a.example.org" anycastTokenRequest
        "peer-b.example.org").headers "X-Keppel-Forwarded-By" = "peer-a.example.org" ∧
    getParam (ReverseProxyAnycastRequestToPeer "peer-a.example.org" anycastTokenRequest
        "peer-b.example.org").query "forwarded-by" = "peer-a.example.org" ∧
    reverseProxyTokenReqToUpstream "peer-b.example.org" ⟨false, ""⟩ (.ok "peer-a.example.org")
        (ReverseProxyAnycastRequestToPeer "peer-a.example.org" anycastTokenRequest
          "peer-b.example.org")
      = .forwarded (ReverseProxyAnycastRequestToPeer "peer-b.example.org"
          (ReverseProxyAnycastRequestToPeer "peer-a.example.org" anycastTokenRequest
            "peer-b.example.org") "peer-a.example.org") := by
  refine ⟨by decide, by decide, by decide⟩

/-! ## Swift federation driver (internal/drivers/openstack/federation_swift.go)

The driver stores one JSON file per account in a shared Swift container.
All writes go through `modifyAccountFile`: read, apply the modifier
(first pass), skip the write when nothing changed, otherwise write,
re-read, re-apply the modifier (second pass) and fail as a write
collision when the contents differ. We embed the container state for one
account as `Option AccountFile` (`none` = file absent; a read of an
absent file yields an empty file, per the 404 handling in
`readAccountFile`), and the sequential semantics in which the re-read
returns what was just written. Modifier errors carry the `isUserError`
flag that the claim functions set. -/

/-- The per-account file, `accountFile` in the Go source (the
`AccountName` field is excluded from JSON and always equal on both sides
of every comparison, so it is omitted). -/
structure AccountFile where
  primaryHostName : String
  replicaHostNames : List String
  subleaseTokenSecret : String
deriving DecidableEq, Repr

/-- Error classification threaded out of the modifier closures via the
`isUserError` flag in the Go source. -/
inductive FedErr | user | server
deriving DecidableEq, Repr

/-- `keppel.ClaimResult`. -/
inductive ClaimResult | succeeded | failed | errored
deriving DecidableEq, Repr

/-- The account under claim, reduced to the fields the driver reads. -/
structure FedAccount where
  name : String
  upstreamPeerHostName : String
deriving DecidableEq, Repr

/-- Insertion step for `sortStrings`. -/
def insertSorted (s : String) : List String → List String
  | [] => [s]
  | x :: xs => if s ≤ x then s :: x :: xs else x :: insertSorted s xs

/-- `sort.Strings`, modeled as insertion sort (any correct ascending
sort computes the same list). -/
def sortStrings : List String → List String
  | [] => []
  | x :: xs => insertSorted x (sortStrings xs)

/-- `addStringToList`: append unless already present. -/
def addStringToList (l : List String) (v : String) : List String :=
  if v ∈ l then l else l ++ [v]

/-- The empty account file created by `readAccountFile` on a 404. -/
def emptyAccountFile : AccountFile := ⟨"", [], ""⟩

/-- `readAccountFile` over the embedded container state. -/
def readAccountFile (st : Option AccountFile) : AccountFile := st.getD emptyAccountFile

/-- `modifyAccountFile`: the write-then-reread discipline, under
sequential semantics (the re-read after the 250 ms sleep returns the
file just written). Returns the resulting container state and the error,
if any. The replica list is sorted before each comparison, exactly as
the `sort.Strings` calls do. -/
def modifyAccountFile (st : Option AccountFile)
    (modify : AccountFile → Bool → Except FedErr AccountFile) :
    Option AccountFile × Option FedErr :=
  let fileOld := readAccountFile st
  match modify fileOld true with
  | .error e => (st, some e)
  | .ok f1 =>
    let fileOldModified := { f1 with replicaHostNames := sortStrings f1.replicaHostNames }
    if fileOldModified = fileOld then (st, none)
    else
      match modify fileOldModified false with
      | .error e => (some fileOldModified, some e)
      | .ok f2 =>
        let fileNewModified := { f2 with replicaHostNames := sortStrings f2.replicaHostNames }
        if fileNewModified = fileOldModified then (some fileOldModified, none)
        else (some fileOldModified, some .server)

/-- The modifier closure of `claimPrimaryAccount`: claim the primary
slot when it is free or already ours, else a user error. -/
def primaryModifier (own : String) : AccountFile → Bool → Except FedErr AccountFile :=
  fun file _ =>
    if file.primaryHostName = "" ∨ file.primaryHostName = own then
      .ok { file with primaryHostName := own }
    else .error .user

/-- `claimPrimaryAccount`: rejects a nonempty sublease-token secret,
then claims via `modifyAccountFile`. -/
def claimPrimaryAccount (own secret : String) (st : Option AccountFile) :
    Option AccountFile × Option FedErr :=
  if secret ≠ "" then (st, some .user)
  else modifyAccountFile st (primaryModifier own)

/-- The modifier closure of `claimReplicaAccount`: on the first pass
verify and burn the sublease token secret; on both passes verify that
the primary is the expected upstream peer, then add ourselves to the
replica list. -/
def replicaModifier (own upstream secret : String) :
    AccountFile → Bool → Except FedErr AccountFile :=
  fun file firstPass =>
    match (if firstPass then
            (if file.subleaseTokenSecret ≠ secret then .error .user
             else .ok { file with subleaseTokenSecret := "" })
           else .ok file : Except FedErr AccountFile) with
    | .error e => .error e
    | .ok f =>
      if f.primaryHostName ≠ upstream then .error .server
      else .ok { f with replicaHostNames := addStringToList f.replicaHostNames own }

/-- `claimReplicaAccount`: rejects an empty sublease-token secret, then
claims via `modifyAccountFile`. -/
def claimReplicaAccount (own : String) (account : FedAccount) (secret : String)
    (st : Option AccountFile) : Option AccountFile × Option FedErr :=
  if secret = "" then (st, some .user)
  else modifyAccountFile st (replicaModifier own account.upstreamPeerHostName secret)

/-- The error-to-result mapping at the end of `ClaimAccountName`. -/
def claimResultOf : Option FedErr → ClaimResult
  | none => .succeeded
  | some .user => .failed
  | some .server => .errored

/-- `ClaimAccountName`: dispatch on replica vs. primary account, map the
error to a `ClaimResult`. -/
def ClaimAccountName (own : String) (account : FedAccount) (secret : String)
    (st : Option AccountFile) : Option AccountFile × ClaimResult :=
  let r := if account.upstreamPeerHostName ≠ "" then claimReplicaAccount own account secret st
           else claimPrimaryAccount own secret st
  (r.1, claimResultOf r.2)

lemma claimResultOf_eq_succeeded {x : Option FedErr} :
    claimResultOf x = .succeeded ↔ x = none := by
  cases x with
  | none => simp [claimResultOf]
  | some e => cases e <;> simp [claimResultOf]

lemma claimResultOf_eq_failed {x : Option FedErr} :
    claimResultOf x = .failed ↔ x = some .user := by
  cases x with
  | none => simp [claimResultOf]
  | some e => cases e <;> simp [claimResultOf]

lemma ClaimAccountName_primary (own : String) (account : FedAccount) (secret : String)
    (st : Option AccountFile) (hup : account.upstreamPeerHostName = "") :
    ClaimAccountName own account secret st =
      ((claimPrimaryAccount own secret st).1,
        claimResultOf (claimPrimaryAccount own secret st).2) := by
  unfold ClaimAccountName
  rw [if_neg (by simp [hup])]

lemma ClaimAccountName_replica (own : String) (account : FedAccount) (secret : String)
    (st : Option AccountFile) (hup : account.upstreamPeerHostName ≠ "") :
    ClaimAccountName own account secret st =
      ((claimReplicaAccount own account secret st).1,
        claimResultOf (claimReplicaAccount own account secret st).2) := by
  unfold ClaimAccountName
  rw [if_pos hup]

/-- C1 counterexample: a replica claim with a valid sublease token
succeeds and burns the token; repeating the very same call — same
account, same secret, no ForfeitAccountName in between — returns
ClaimFailed rather than Succeeded, because the stored secret is now
empty and no longer matches. -/
theorem C1_claim_idempotence_counterexample :
    (ClaimAccountName "host-b.example.org" ⟨"lib", "host-a.example.org"⟩ "tok"
      (some ⟨"host-a.example.org", [], "tok"⟩)).2 = .succeeded ∧
    (ClaimAccountName "host-b.example.org" ⟨"lib", "host-a.example.org"⟩ "tok"
      (ClaimAccountName "host-b.example.org" ⟨"lib", "host-a.example.org"⟩ "tok"
        (some ⟨"host-a.example.org", [], "tok"⟩)).1).2 = .failed ∧
    ClaimResult.failed ≠ ClaimResult.succeeded := by
  refine ⟨by decide, by decide, by decide⟩

/-- C1 (amended): `ClaimAccountName` is idempotent for primary accounts
(empty `UpstreamPeerHostName`): after a `Succeeded` claim, repeating the
same call yields `Succeeded` again. For replica accounts the first
successful claim burns the one-shot sublease secret, and a repeat of the
same call returns `ClaimFailed` instead. -/
theorem C1_claim_idempotence_amended (own : String) (account : FedAccount) (secret : String)
    (st : Option AccountFile) :
    (account.upstreamPeerHostName = "" →
      (ClaimAccountName own account secret st).2 = .succeeded →
      (ClaimAccountName own account secret (ClaimAccountName own account secret st).1).2
        = .succeeded) ∧
    (account.upstreamPeerHostName ≠ "" →
      (ClaimAccountName own account secret st).2 = .succeeded →
      (ClaimAccountName own account secret (ClaimAccountName own account secret st).1).2
        = .failed) := by
  constructor
  · intro hup h2
    rw [ClaimAccountName_primary own account secret st hup] at h2 ⊢
    simp only at h2
    rw [claimResultOf_eq_succeeded] at h2
    rw [ClaimAccountName_primary own account secret _ hup]
    simp only
    rw [claimResultOf_eq_succeeded]
    by_cases hsec : secret = ""
    swap
    · rw [show claimPrimaryAccount own secret st = (st, some .user) from by
        unfold claimPrimaryAccount; rw [if_pos hsec]] at h2
      exact absurd h2 (by simp)
    subst hsec
    set fo := readAccountFile st with hfo
    by_cases hcond : fo.primaryHostName = "" ∨ fo.primaryHostName = own
    swap
    · have hm1 : primaryModifier own fo true = .error .user := by
        unfold primaryModifier
        rw [if_neg hcond]
      rw [show claimPrimaryAccount own "" st = (st, some .user) from by
        unfold claimPrimaryAccount modifyAccountFile
        simp only [if_neg (by simp : ¬("" : String) ≠ "")]
        rw [← hfo, hm1]] at h2
      exact absurd h2 (by simp)
    have hm1 : primaryModifier own fo true = .ok { fo with primaryHostName := own } := by
      unfold primaryModifier
      rw [if_pos hcond]
    by_cases heq : ({ fo with primaryHostName := own, replicaHostNames := sortStrings fo.replicaHostNames } : AccountFile) = fo
    · have hrun : claimPrimaryAccount own "" st = (st, none) := by
        unfold claimPrimaryAccount modifyAccountFile
        simp only [if_neg (by simp : ¬("" : String) ≠ "")]
        rw [← hfo, hm1]
        simp only []
        rw [if_pos heq]
      rw [hrun]
      show (claimPrimaryAccount own "" st).2 = none
      rw [hrun]
    · have hm2 : primaryModifier own ({ fo with primaryHostName := own, replicaHostNames := sortStrings fo.replicaHostNames } : AccountFile) false = .ok { fo with primaryHostName := own, replicaHostNames := sortStrings fo.replicaHostNames } := by
        unfold primaryModifier
        rw [if_pos (Or.inr rfl)]
      by_cases hss : ({ fo with primaryHostName := own, replicaHostNames := sortStrings (sortStrings fo.replicaHostNames) } : AccountFile) = { fo with primaryHostName := own, replicaHostNames := sortStrings fo.replicaHostNames }
      · have hrun : claimPrimaryAccount own "" st = (some { fo with primaryHostName := own, replicaHostNames := sortStrings fo.replicaHostNames }, none) := by
          unfold claimPrimaryAccount modifyAccountFile
          simp only [if_neg (by simp : ¬("" : String) ≠ "")]
          rw [← hfo, hm1]
          simp only []
          rw [if_neg heq, hm2]
          simp only []
          rw [if_pos hss]
        rw [hrun]
        have hm1b : primaryModifier own ({ fo with primaryHostName := own, replicaHostNames := sortStrings fo.replicaHostNames } : AccountFile) true = .ok { fo with primaryHostName := own, replicaHostNames := sortStrings fo.replicaHostNames } := by
          unfold primaryModifier
          rw [if_pos (Or.inr rfl)]
        show (claimPrimaryAccount own "" (some { fo with primaryHostName := own, replicaHostNames := sortStrings fo.replicaHostNames })).2 = none
        unfold claimPrimaryAccount modifyAccountFile
        simp only [if_neg (by simp : ¬("" : String) ≠ "")]
        rw [show readAccountFile (some { fo with primaryHostName := own, replicaHostNames := sortStrings fo.replicaHostNames }) = { fo with primaryHostName := own, replicaHostNames := sortStrings fo.replicaHostNames } from rfl, hm1b]
        simp only []
        rw [if_pos hss]
      · have hrun : claimPrimaryAccount own "" st = (some { fo with primaryHostName := own, replicaHostNames := sortStrings fo.replicaHostNames }, some .server) := by
          unfold claimPrimaryAccount modifyAccountFile
          simp only [if_neg (by simp : ¬("" : String) ≠ "")]
          rw [← hfo, hm1]
          simp only []
          rw [if_neg heq, hm2]
          simp only []
          rw [if_neg hss]
        rw [hrun] at h2
        exact absurd h2 (by simp)
  · intro hup h2
    rw [ClaimAccountName_replica own account secret st hup] at h2 ⊢
    simp only at h2
    rw [claimResultOf_eq_succeeded] at h2
    rw [ClaimAccountName_replica own account secret _ hup]
    simp only
    rw [claimResultOf_eq_failed]
    by_cases hsec : secret = ""
    · rw [show claimReplicaAccount own account secret st = (st, some .user) from by
        unfold claimReplicaAccount; rw [if_pos hsec]] at h2
      exact absurd h2 (by simp)
    set up := account.upstreamPeerHostName with hupd
    set fo := readAccountFile st with hfo
    by_cases htok : fo.subleaseTokenSecret = secret
    swap
    · have hm1 : replicaModifier own up secret fo true = .error .user := by
        unfold replicaModifier
        rw [if_pos rfl, if_pos htok]
      rw [show claimReplicaAccount own account secret st = (st, some .user) from by
        unfold claimReplicaAccount modifyAccountFile
        rw [if_neg hsec]
        simp only []
        rw [← hupd, ← hfo, hm1]] at h2
      exact absurd h2 (by simp)
    by_cases hpr : fo.primaryHostName = up
    swap
    · have hm1 : replicaModifier own up secret fo true = .error .server := by
        unfold replicaModifier
        rw [if_pos rfl, if_neg (by simpa using htok)]
        simp only []
        rw [if_pos hpr]
      rw [show claimReplicaAccount own account secret st = (st, some .server) from by
        unfold claimReplicaAccount modifyAccountFile
        rw [if_neg hsec]
        simp only []
        rw [← hupd, ← hfo, hm1]] at h2
      exact absurd h2 (by simp)
    have hm1 : replicaModifier own up secret fo true = .ok { fo with replicaHostNames := addStringToList fo.replicaHostNames own, subleaseTokenSecret := "" } := by
      unfold replicaModifier
      rw [if_pos rfl, if_neg (by simpa using htok)]
      simp only []
      rw [if_neg (by simpa using hpr)]
    have hne : ({ fo with replicaHostNames := sortStrings (addStringToList fo.replicaHostNames own), subleaseTokenSecret := "" } : AccountFile) ≠ fo := by
      intro he
      have hs := congrArg AccountFile.subleaseTokenSecret he
      simp only at hs
      exact hsec (hs.trans htok).symm
    have hm2 : replicaModifier own up secret ({ fo with replicaHostNames := sortStrings (addStringToList fo.replicaHostNames own), subleaseTokenSecret := "" } : AccountFile) false = .ok { fo with replicaHostNames := addStringToList (sortStrings (addStringToList fo.replicaHostNames own)) own, subleaseTokenSecret := "" } := by
      unfold replicaModifier
      rw [if_neg (by simp : ¬false = true)]
      simp only []
      rw [if_neg (by simpa using hpr)]
    have hm1b : replicaModifier own up secret ({ fo with replicaHostNames := sortStrings (addStringToList fo.replicaHostNames own), subleaseTokenSecret := "" } : AccountFile) true = .error .user := by
      unfold replicaModifier
      rw [if_pos rfl, if_pos (by intro h; exact hsec h.symm)]
    by_cases hss : ({ fo with replicaHostNames := sortStrings (addStringToList (sortStrings (addStringToList fo.replicaHostNames own)) own), subleaseTokenSecret := "" } : AccountFile) = { fo with replicaHostNames := sortStrings (addStringToList fo.replicaHostNames own), subleaseTokenSecret := "" }
    · have hrun : claimReplicaAccount own account secret st = (some { fo with replicaHostNames := sortStrings (addStringToList fo.replicaHostNames own), subleaseTokenSecret := "" }, none) := by
        unfold claimReplicaAccount modifyAccountFile
        rw [if_neg hsec]
        simp only []
        rw [← hupd, ← hfo, hm1]
        simp only []
        rw [if_neg hne, hm2]
        simp only []
        rw [if_pos hss]
      rw [hrun]
      show (claimReplicaAccount own account secret (some { fo with replicaHostNames := sortStrings (addStringToList fo.replicaHostNames own), subleaseTokenSecret := "" })).2 = some .user
      unfold claimReplicaAccount modifyAccountFile
      rw [if_neg hsec]
      simp only []
      rw [← hupd]
      rw [show readAccountFile (some { fo with replicaHostNames := sortStrings (addStringToList fo.replicaHostNames own), subleaseTokenSecret := "" }) = { fo with replicaHostNames := sortStrings (addStringToList fo.replicaHostNames own), subleaseTokenSecret := "" } from rfl, hm1b]
    · have hrun : claimReplicaAccount own account secret st = (some { fo with replicaHostNames := sortStrings (addStringToList fo.replicaHostNames own), subleaseTokenSecret := "" }, some .server) := by
        unfold claimReplicaAccount modifyAccountFile
        rw [if_neg hsec]
        simp only []
        rw [← hupd, ← hfo, hm1]
        simp only []
        rw [if_neg hne, hm2]
        simp only []
        rw [if_neg hss]
      rw [hrun] at h2
      exact absurd h2 (by simp)

/-- C1 witness: the amended theorem at concrete inputs — a repeated
primary claim stays `Succeeded`, a repeated replica claim (same burned
secret) comes back `ClaimFailed`. -/
theorem C1_claim_idempotence_witness :
    ((ClaimAccountName "host-a.example.org" ⟨"lib", ""⟩ "" none).2 = .succeeded →
      (ClaimAccountName "host-a.example.org" ⟨"lib", ""⟩ ""
        (ClaimAccountName "host-a.example.org" ⟨"lib", ""⟩ "" none).1).2 = .succeeded) ∧
    ((ClaimAccountName "host-b.example.org" ⟨"lib", "host-a.example.org"⟩ "tok"
        (some ⟨"host-a.example.org", [], "tok"⟩)).2 = .succeeded →
      (ClaimAccountName "host-b.example.org" ⟨"lib", "host-a.example.org"⟩ "tok"
        (ClaimAccountName "host-b.example.org" ⟨"lib", "host-a.example.org"⟩ "tok"
          (some ⟨"host-a.example.org", [], "tok"⟩)).1).2 = .failed) :=
  ⟨(C1_claim_idempotence_amended "host-a.example.org" ⟨"lib", ""⟩ "" none).1 rfl,
   (C1_claim_idempotence_amended "host-b.example.org" ⟨"lib", "host-a.example.org"⟩ "tok"
      (some ⟨"host-a.example.org", [], "tok"⟩)).2 (by decide)⟩

/-! ## Manifest parsing and alternate serving (internal/keppel, ParsedManifest)

Four media types are parsed; each adapter implements
`ManifestReferences` (children passing the account's platform filter)
and `AcceptableAlternates`. Only the Docker v2 manifest-list adapter
returns any alternates: the children of Docker v2 schema 2 media type on
platform linux/amd64. JSON deserialization (done by the containers/image
library) is outside the logic under test; manifests enter the model
already structured. -/

/-- `imagespecs.Platform`. -/
structure OciPlatform where
  architecture : String
  os : String
  osVersion : String
  osFeatures : List String
  variant : String
deriving DecidableEq, Repr

/-- `imagespecs.Descriptor` (annotations and artifact type omitted: the
adapters under test never read them). -/
structure OciDescriptor where
  mediaType : String
  digest : String
  size : Int
  urls : List String
  platform : Option OciPlatform
deriving DecidableEq, Repr

/-- A child entry of a Docker v2 manifest list (its platform is a plain
struct, never absent). -/
structure S2ListEntry where
  mediaType : String
  digest : String
  size : Int
  urls : List String
  platform : OciPlatform
deriving DecidableEq, Repr

/-- `manifest.Schema2List`, reduced to the fields the adapter reads. -/
structure Schema2List where
  mediaType : String
  manifests : List S2ListEntry
deriving DecidableEq, Repr

def DockerV2ListMediaType : String := "application/vnd.docker.distribution.manifest.list.v2+json"

def DockerV2Schema2MediaType : String := "application/vnd.docker.distribution.manifest.v2+json"

/-- `models.PlatformFilter.Includes`: an empty filter accepts every
platform, otherwise membership by deep equality. -/
def PlatformFilter.Includes (f : List OciPlatform) (platform : OciPlatform) : Bool :=
  if f.length = 0 then true
  else f.any (fun p => p == platform)

/-- `v2ManifestListAdapter.ManifestReferences`: children passing the
platform filter, converted to descriptors with their platform attached. -/
def v2ManifestListManifestReferences (pf : List OciPlatform) (m : Schema2List) :
    List OciDescriptor :=
  m.manifests.filterMap (fun c =>
    if PlatformFilter.Includes pf c.platform then
      some ⟨c.mediaType, c.digest, c.size, c.urls, some c.platform⟩
    else none)

/-- `v2ManifestListAdapter.AcceptableAlternates`: among the (filtered)
references, those of Docker v2 schema 2 media type on linux/amd64,
provided the list itself has the Docker v2 list media type. The
platform is always present on descriptors built by `ManifestReferences`;
a missing platform yields `false` where the Go code would dereference a
pointer that is never nil on this path. -/
def v2ManifestListAcceptableAlternates (pf : List OciPlatform) (m : Schema2List) :
    List OciDescriptor :=
  (v2ManifestListManifestReferences pf m).filter (fun d =>
    m.mediaType == DockerV2ListMediaType && d.mediaType == DockerV2Schema2MediaType &&
      (match d.platform with
       | some p => p.os == "linux" && p.architecture == "amd64"
       | none => false))

/-- `v2ManifestAdapter.AcceptableAlternates` (Docker v2 schema 2): none. -/
def v2ManifestAcceptableAlternates (pf : List OciPlatform) : List OciDescriptor := []

/-- `ociIndexAdapter.AcceptableAlternates` (OCI image index): none. -/
def ociIndexAcceptableAlternates (pf : List OciPlatform) : List OciDescriptor := []

/-- `ociManifestAdapter.AcceptableAlternates` (OCI image manifest): none. -/
def ociManifestAcceptableAlternates (pf : List OciPlatform) : List OciDescriptor := []

/-- C9: for a parsed Docker v2 manifest list, the acceptable alternates
are exactly the platform-filtered children whose media type is Docker v2
schema 2 and whose platform is linux/amd64; the other three supported
media types have no acceptable alternates. -/
theorem C9_acceptable_alternates (pf : List OciPlatform) (m : Schema2List)
    (hmt : m.mediaType = DockerV2ListMediaType) :
    (∀ d : OciDescriptor,
      d ∈ v2ManifestListAcceptableAlternates pf m ↔
        d ∈ v2ManifestListManifestReferences pf m ∧
        d.mediaType = DockerV2Schema2MediaType ∧
        ∃ p, d.platform = some p ∧ p.os = "linux" ∧ p.architecture = "amd64") ∧
    v2ManifestAcceptableAlternates pf = [] ∧
    ociIndexAcceptableAlternates pf = [] ∧
    ociManifestAcceptableAlternates pf = [] := by
  refine ⟨?_, rfl, rfl, rfl⟩
  intro d
  unfold v2ManifestListAcceptableAlternates
  rw [List.mem_filter]
  constructor
  · rintro ⟨hmem, hflt⟩
    simp only [hmt, beq_self_eq_true, Bool.true_and, Bool.and_eq_true, beq_iff_eq] at hflt
    obtain ⟨hdm, hplat⟩ := hflt
    refine ⟨hmem, hdm, ?_⟩
    cases hp : d.platform with
    | none => rw [hp] at hplat; simp at hplat
    | some p =>
      rw [hp] at hplat
      simp only [Bool.and_eq_true, beq_iff_eq] at hplat
      exact ⟨p, rfl, hplat.1, hplat.2⟩
  · rintro ⟨hmem, hdm, p, hp, hos, harch⟩
    refine ⟨hmem, ?_⟩
    simp only [hmt, hp, hdm, hos, harch, beq_self_eq_true, Bool.true_and, Bool.and_self]

/-- C9 witness: the characterization applied to a two-child manifest
list (linux/amd64 and linux/arm) with an empty platform filter: the
amd64 child is an acceptable alternate, the arm child is not. -/
theorem C9_acceptable_alternates_witness :
    ((⟨DockerV2Schema2MediaType, "sha256:e255", 592, [],
        some ⟨"amd64", "linux", "", [], ""⟩⟩ : OciDescriptor) ∈
      v2ManifestListAcceptableAlternates []
        ⟨DockerV2ListMediaType,
         [⟨DockerV2Schema2MediaType, "sha256:e255", 592, [], ⟨"amd64", "linux", "", [], ""⟩⟩,
          ⟨DockerV2Schema2MediaType, "sha256:207a", 592, [], ⟨"arm", "linux", "", [], ""⟩⟩]⟩) ∧
    ¬((⟨DockerV2Schema2MediaType, "sha256:207a", 592, [],
        some ⟨"arm", "linux", "", [], ""⟩⟩ : OciDescriptor) ∈
      v2ManifestListAcceptableAlternates []
        ⟨DockerV2ListMediaType,
         [⟨DockerV2Schema2MediaType, "sha256:e255", 592, [], ⟨"amd64", "linux", "", [], ""⟩⟩,
          ⟨DockerV2Schema2MediaType, "sha256:207a", 592, [], ⟨"arm", "linux", "", [], ""⟩⟩]⟩) := by
  constructor
  · exact ((C9_acceptable_alternates []
      ⟨DockerV2ListMediaType,
       [⟨DockerV2Schema2MediaType, "sha256:e255", 592, [], ⟨"amd64", "linux", "", [], ""⟩⟩,
        ⟨DockerV2Schema2MediaType, "sha256:207a", 592, [], ⟨"arm", "linux", "", [], ""⟩⟩]⟩
      rfl).1 _).mpr ⟨by decide, rfl, ⟨"amd64", "linux", "", [], ""⟩, rfl, rfl, rfl⟩
  · intro hmem
    have h := ((C9_acceptable_alternates []
      ⟨DockerV2ListMediaType,
       [⟨DockerV2Schema2MediaType, "sha256:e255", 592, [], ⟨"amd64", "linux", "", [], ""⟩⟩,
        ⟨DockerV2Schema2MediaType, "sha256:207a", 592, [], ⟨"arm", "linux", "", [], ""⟩⟩]⟩
      rfl).1 _).mp hmem
    obtain ⟨-, -, p, hp, -, harch⟩ := h
    cases hp
    exact absurd harch (by decide)

/-! ## Janitor account deletion (internal/tasks, deleteMarkedAccount)

`deleteMarkedAccount` processes one account picked by the deletion job's
discover query (`is_deleting AND next_deletion_attempt_at < now`). We
embed the database tables the function touches as lists of rows, time as
an integer count of seconds (so "now + 1 minute" is `now + 60`), and the
storage driver's `CleanupAccount` / the federation driver's
`ForfeitAccountName` as environment-supplied outcomes.
`processor.DeleteManifest` is not among the provided sources and is
modelled from the spec below. The Go code finds each repository by its
per-account unique name; we key repositories by their id directly. -/

/-- The `accounts` columns the deletion task touches. -/
structure JAccount where
  name : String
  isDeleting : Bool
  nextBlobSweepAt : Option Int
  nextDeletionAttemptAt : Option Int
deriving DecidableEq, Repr

/-- The `repos` columns the deletion task touches. -/
structure JRepo where
  id : Nat
  accountName : String
deriving DecidableEq, Repr

/-- A `manifests` row key. -/
structure JManifest where
  repoID : Nat
  digest : String
deriving DecidableEq, Repr

/-- A `manifest_manifest_refs` row. -/
structure JMMRef where
  repoID : Nat
  parentDigest : String
  childDigest : String
deriving DecidableEq, Repr

/-- A `tags` row. -/
structure JTag where
  repoID : Nat
  name : String
  digest : String
deriving DecidableEq, Repr

/-- The `blobs` columns the deletion task touches. -/
structure JBlob where
  id : Nat
  accountName : String
  canBeDeletedAt : Option Int
deriving DecidableEq, Repr

/-- The database state seen by the deletion task. -/
structure JanitorState where
  accounts : List JAccount
  repos : List JRepo
  manifests : List JManifest
  manifestManifestRefs : List JMMRef
  tags : List JTag
  blobs : List JBlob
deriving DecidableEq, Repr

/-- External outcomes of one deletion attempt: the clock and the results
of the storage and federation driver calls. -/
structure JanitorEnv where
  now : Int
  cleanupOk : Bool
  forfeitOk : Bool
deriving DecidableEq, Repr

/-- Whether `repoID` belongs to the account (the JOIN with `repos`). -/
def repoInAccount (repos : List JRepo) (accountName : String) (repoID : Nat) : Bool :=
  repos.any (fun r => r.id == repoID && r.accountName == accountName)

/-- The manifests of the account (`deleteAccountCountManifestsQuery`). -/
def manifestsOfAccount (st : JanitorState) (accountName : String) : List JManifest :=
  st.manifests.filter (fun m => repoInAccount st.repos accountName m.repoID)

/-- Whether some `manifest_manifest_refs` row names the manifest as a
child (within its repository). -/
def hasParentRefIn (refs : List JMMRef) (m : JManifest) : Bool :=
  refs.any (fun ref => ref.repoID == m.repoID && ref.childDigest == m.digest)

/-- The root manifests of the account
(`deleteAccountFindManifestsQuery`: LEFT OUTER JOIN with
`manifest_manifest_refs`, `WHERE parent_digest IS NULL`). -/
def rootManifestsOfAccount (st : JanitorState) (accountName : String) : List JManifest :=
  (manifestsOfAccount st accountName).filter (fun m => !hasParentRefIn st.manifestManifestRefs m)

/-- Modelled from the spec: `Processor.DeleteManifest` (§4.3) is not in
the provided sources. Per the spec it is transactional, verifies the
manifest is not referenced by any other manifest, unlinks tags, and
deletes the manifest rows together with their outgoing references. -/
def deleteManifestApply (st : JanitorState) (repoID : Nat) (dg : String) : JanitorState :=
  { st with
    manifests := st.manifests.filter (fun m => !(m.repoID == repoID && m.digest == dg)),
    manifestManifestRefs :=
      st.manifestManifestRefs.filter (fun ref => !(ref.repoID == repoID && ref.parentDigest == dg)),
    tags := st.tags.filter (fun t => !(t.repoID == repoID && t.digest == dg)) }

def deleteManifestSpec (st : JanitorState) (repoID : Nat) (dg : String) :
    Except Unit JanitorState :=
  if st.manifestManifestRefs.any (fun ref => ref.repoID == repoID && ref.childDigest == dg) then
    .error ()
  else
    .ok (deleteManifestApply st repoID dg)

/-- The `ForeachRow` loop over the root manifests: delete each in turn,
counting successes, aborting on the first error (the rows already
deleted stay deleted — each `DeleteManifest` commits separately). -/
def deleteRootManifests (st : JanitorState) : List JManifest → JanitorState × Nat × Bool
  | [] => (st, 0, true)
  | m :: rest =>
    match deleteManifestSpec st m.repoID m.digest with
    | .error _ => (st, 0, false)
    | .ok st1 =>
      let r := deleteRootManifests st1 rest
      (r.1, r.2.1 + 1, r.2.2)

/-- `UPDATE blobs SET can_be_deleted_at = now WHERE account_name = ...`. -/
def markAllBlobsForDeletion (st : JanitorState) (accountName : String) (t : Int) : JanitorState :=
  { st with blobs := st.blobs.map (fun b =>
      if b.accountName == accountName then { b with canBeDeletedAt := some t } else b) }

/-- `UPDATE accounts SET next_blob_sweep_at = now WHERE name = ...`. -/
def scheduleBlobSweep (st : JanitorState) (accountName : String) (t : Int) : JanitorState :=
  { st with accounts := st.accounts.map (fun a =>
      if a.name == accountName then { a with nextBlobSweepAt := some t } else a) }

/-- `UPDATE accounts SET next_deletion_attempt_at = ... WHERE name = ...`. -/
def scheduleNextDeletionAttempt (st : JanitorState) (accountName : String) (t : Int) :
    JanitorState :=
  { st with accounts := st.accounts.map (fun a =>
      if a.name == accountName then { a with nextDeletionAttemptAt := some t } else a) }

/-- `DELETE FROM repos WHERE account_name = ...` (cascading blob mounts). -/
def deleteReposOfAccount (st : JanitorState) (accountName : String) : JanitorState :=
  { st with repos := st.repos.filter (fun rp => !(rp.accountName == accountName)) }

/-- The `tx.Delete(accountModel)` of the final transaction. -/
def deleteAccountRow (st : JanitorState) (accountName : String) : JanitorState :=
  { st with accounts := st.accounts.filter (fun a => !(a.name == accountName)) }

/-- The whole root-deletion phase of one pass. -/
def rootDeletionPass (st : JanitorState) (accountName : String) : JanitorState × Nat × Bool :=
  deleteRootManifests st (rootManifestsOfAccount st accountName)

/-- The disposition of a single `deleteMarkedAccount` pass. -/
inductive DeletionStepResult
  | accountGone
  | manifestError (st : JanitorState)
  | noProgress (st : JanitorState)
  | recurse (st : JanitorState)
  | blobsRemain (st : JanitorState)
  | accountDeleted (st : JanitorState)
  | cleanupFailed (st : JanitorState)
deriving DecidableEq, Repr

/-- One pass of `deleteMarkedAccount`: look up the account (a missing
row means it was already deleted → success), delete all root manifests,
then either recurse (progress was made), fail (no progress), or proceed:
delete the account's repos, and if blobs remain mark them all, arm the
blob sweep and the next deletion attempt (now + 1 minute) and stop;
otherwise delete the account row, confirming with the storage and
federation drivers before the commit (on their failure the transaction
rolls back and the account row stays). -/
def deleteMarkedAccountStep (env : JanitorEnv) (st : JanitorState) (accountName : String) :
    DeletionStepResult :=
  match st.accounts.find? (fun a => a.name == accountName) with
  | none => .accountGone
  | some _ =>
    let r := rootDeletionPass st accountName
    if r.2.2 = false then .manifestError r.1
    else if (manifestsOfAccount r.1 accountName).length > 0 then
      if r.2.1 > 0 then .recurse r.1 else .noProgress r.1
    else
      let st2 := deleteReposOfAccount r.1 accountName
      if (st2.blobs.filter (fun b => b.accountName == accountName)).length > 0 then
        .blobsRemain (scheduleNextDeletionAttempt
          (scheduleBlobSweep (markAllBlobsForDeletion st2 accountName env.now)
            accountName env.now)
          accountName (env.now + 60))
      else
        if env.cleanupOk then
          if env.forfeitOk then
            .accountDeleted (deleteAccountRow st2 accountName)
          else .cleanupFailed st2
        else .cleanupFailed st2

/-- `deleteMarkedAccount` itself: iterate the pass, following the
recursion the Go function performs when manifest deletion made progress
but manifests remain. The fuel bounds the recursion depth (the Go
recursion terminates because each recursive call happens only after the
manifest count strictly decreased); the Boolean is the success of the
run (`nil` error). -/
def deleteMarkedAccount (env : JanitorEnv) : Nat → JanitorState → String → JanitorState × Bool
  | 0, st, _ => (st, false)
  | fuel + 1, st, accountName =>
    match deleteMarkedAccountStep env st accountName with
    | .accountGone => (st, true)
    | .manifestError st1 => (st1, false)
    | .noProgress st1 => (st1, false)
    | .recurse st1 => deleteMarkedAccount env fuel st1 accountName
    | .blobsRemain st1 => (st1, true)
    | .accountDeleted st1 => (st1, true)
    | .cleanupFailed st1 => (st1, false)

lemma deleteRootManifests_frame : ∀ (l : List JManifest) (st : JanitorState),
    (deleteRootManifests st l).1.repos = st.repos ∧
    (deleteRootManifests st l).1.blobs = st.blobs ∧
    (deleteRootManifests st l).1.accounts = st.accounts ∧
    List.Sublist (deleteRootManifests st l).1.manifestManifestRefs st.manifestManifestRefs := by
  intro l
  induction l with
  | nil => intro st; exact ⟨rfl, rfl, rfl, List.Sublist.refl _⟩
  | cons m rest ih =>
    intro st
    unfold deleteRootManifests deleteManifestSpec
    by_cases hg : (st.manifestManifestRefs.any
        (fun ref => ref.repoID == m.repoID && ref.childDigest == m.digest)) = true
    · rw [if_pos hg]
      exact ⟨rfl, rfl, rfl, List.Sublist.refl _⟩
    · rw [if_neg hg]
      simp only []
      obtain ⟨h1, h2, h3, h4⟩ := ih (deleteManifestApply st m.repoID m.digest)
      exact ⟨h1, h2, h3, h4.trans (List.filter_sublist _)⟩

lemma deleteRootManifests_spec : ∀ (l : List JManifest) (st : JanitorState),
    (∀ m ∈ l, hasParentRefIn st.manifestManifestRefs m = false) →
    (deleteRootManifests st l).2.2 = true ∧
    (deleteRootManifests st l).2.1 = l.length ∧
    (deleteRootManifests st l).1.manifests = st.manifests.filter
      (fun x => l.all (fun m => !(x.repoID == m.repoID && x.digest == m.digest))) := by
  intro l
  induction l with
  | nil =>
    intro st _
    refine ⟨rfl, rfl, ?_⟩
    simp [deleteRootManifests]
  | cons m rest ih =>
    intro st hroots
    have hg : (st.manifestManifestRefs.any
        (fun ref => ref.repoID == m.repoID && ref.childDigest == m.digest)) = false :=
      hroots m (List.mem_cons_self m rest)
    unfold deleteRootManifests deleteManifestSpec
    rw [if_neg (by rw [hg]; exact Bool.false_ne_true)]
    simp only []
    have hrest : ∀ m' ∈ rest,
        hasParentRefIn (deleteManifestApply st m.repoID m.digest).manifestManifestRefs m'
          = false := by
      intro m' hm'
      have hall := hroots m' (List.mem_cons_of_mem m hm')
      unfold hasParentRefIn at hall ⊢
      rw [List.any_eq_false] at hall ⊢
      intro ref href
      exact hall ref (List.mem_of_mem_filter href)
    obtain ⟨ih1, ih2, ih3⟩ := ih (deleteManifestApply st m.repoID m.digest) hrest
    refine ⟨ih1, by rw [ih2]; rfl, ?_⟩
    rw [ih3]
    have hm1 : (deleteManifestApply st m.repoID m.digest).manifests = st.manifests.filter
        (fun x => !(x.repoID == m.repoID && x.digest == m.digest)) := rfl
    rw [hm1, List.filter_filter]
    apply List.filter_congr
    intro x _
    rw [List.all_cons, Bool.and_comm]

lemma manifestsOfAccount_after_rootDeletion (st : JanitorState) (accountName : String) :
    manifestsOfAccount (rootDeletionPass st accountName).1 accountName =
      (manifestsOfAccount st accountName).filter
        (fun m => hasParentRefIn st.manifestManifestRefs m) := by
  have hroots : ∀ m ∈ rootManifestsOfAccount st accountName,
      hasParentRefIn st.manifestManifestRefs m = false := by
    intro m hm
    have hf := (List.mem_filter.mp hm).2
    simpa using hf
  obtain ⟨hrepos, hblobs, haccts, hrefs⟩ :=
    deleteRootManifests_frame (rootManifestsOfAccount st accountName) st
  obtain ⟨hok, hcnt, hmans⟩ :=
    deleteRootManifests_spec (rootManifestsOfAccount st accountName) st hroots
  show (rootDeletionPass st accountName).1.manifests.filter
      (fun m => repoInAccount (rootDeletionPass st accountName).1.repos accountName m.repoID) = _
  unfold rootDeletionPass
  rw [hrepos, hmans, List.filter_filter]
  show _ = (st.manifests.filter (fun m => repoInAccount st.repos accountName m.repoID)).filter
      (fun m => hasParentRefIn st.manifestManifestRefs m)
  rw [List.filter_filter]
  apply List.filter_congr
  intro x hx
  by_cases hacc : repoInAccount st.repos accountName x.repoID = true
  · rw [hacc]
    simp only [Bool.and_true, Bool.true_and]
    by_cases hpar : hasParentRefIn st.manifestManifestRefs x = true
    · rw [hpar]
      rw [List.all_eq_true]
      intro m hm
      have hmroot := (List.mem_filter.mp hm).2
      rw [Bool.not_eq_true'] at hmroot
      by_cases hpair : (x.repoID == m.repoID && x.digest == m.digest) = true
      · exfalso
        simp only [Bool.and_eq_true, beq_iff_eq] at hpair
        have hsame : hasParentRefIn st.manifestManifestRefs m
            = hasParentRefIn st.manifestManifestRefs x := by
          unfold hasParentRefIn
          rw [hpair.1, hpair.2]
        rw [hsame, hpar] at hmroot
        cases hmroot
      · rw [Bool.not_eq_true] at hpair
        rw [hpair]
        rfl
    · rw [Bool.not_eq_true] at hpar
      rw [hpar]
      have hxroot : x ∈ rootManifestsOfAccount st accountName := by
        unfold rootManifestsOfAccount manifestsOfAccount
        rw [List.mem_filter, List.mem_filter]
        exact ⟨⟨hx, hacc⟩, by rw [hpar]; rfl⟩
      cases hall : (rootManifestsOfAccount st accountName).all
          (fun m => !(x.repoID == m.repoID && x.digest == m.digest)) with
      | false => rfl
      | true =>
        exfalso
        rw [List.all_eq_true] at hall
        have hx2 := hall x hxroot
        simp at hx2
  · rw [Bool.not_eq_true] at hacc
    rw [hacc]
    simp

lemma filter_not_filter_eq_nil (p : α → Bool) (l : List α) :
    (l.filter (fun x => !(p x))).filter (fun x => p x) = [] := by
  rw [List.filter_filter]
  induction l with
  | nil => rfl
  | cons a t ih =>
    rw [List.filter_cons]
    cases hp : p a <;> simp [hp, ih]

/-- C5: for every account marked `is_deleting`, one pass of the deletion
task first deletes exactly the root manifests (those with no
parent-manifest ref) and always succeeds in doing so; if manifests
remain and at least one was deleted it recurses immediately; if
manifests remain and none were deleted it returns an error; once no
manifests remain it deletes all repos of the account; and if blobs
remain it marks every blob of the account with `can_be_deleted_at :=
now`, arms `next_blob_sweep_at := now` and `next_deletion_attempt_at :=
now + 1 minute`, and returns without deleting the account row. -/
theorem C5_account_deletion_state_machine (env : JanitorEnv) (st : JanitorState)
    (accountName : String) (acct : JAccount)
    (hfind : st.accounts.find? (fun a => a.name == accountName) = some acct)
    (hdel : acct.isDeleting = true) :
    (rootDeletionPass st accountName).2.2 = true ∧
    (rootDeletionPass st accountName).2.1 = (rootManifestsOfAccount st accountName).length ∧
    manifestsOfAccount (rootDeletionPass st accountName).1 accountName =
      (manifestsOfAccount st accountName).filter
        (fun m => hasParentRefIn st.manifestManifestRefs m) ∧
    ((manifestsOfAccount (rootDeletionPass st accountName).1 accountName).length > 0 →
      (rootDeletionPass st accountName).2.1 > 0 →
      deleteMarkedAccountStep env st accountName = .recurse (rootDeletionPass st accountName).1 ∧
      ∀ fuel, deleteMarkedAccount env (fuel + 1) st accountName =
        deleteMarkedAccount env fuel (rootDeletionPass st accountName).1 accountName) ∧
    ((manifestsOfAccount (rootDeletionPass st accountName).1 accountName).length > 0 →
      (rootDeletionPass st accountName).2.1 = 0 →
      deleteMarkedAccountStep env st accountName
        = .noProgress (rootDeletionPass st accountName).1) ∧
    ((manifestsOfAccount (rootDeletionPass st accountName).1 accountName).length = 0 →
      (st.blobs.filter (fun b => b.accountName == accountName)).length > 0 →
      ∃ st5, deleteMarkedAccountStep env st accountName = .blobsRemain st5 ∧
        st5.repos.filter (fun rp => rp.accountName == accountName) = [] ∧
        (∀ b ∈ st5.blobs, b.accountName = accountName → b.canBeDeletedAt = some env.now) ∧
        ∃ a ∈ st5.accounts, a.name = accountName ∧ a.nextBlobSweepAt = some env.now ∧
          a.nextDeletionAttemptAt = some (env.now + 60)) ∧
    ((manifestsOfAccount (rootDeletionPass st accountName).1 accountName).length = 0 →
      (st.blobs.filter (fun b => b.accountName == accountName)).length = 0 →
      ∃ st6, (deleteMarkedAccountStep env st accountName = .accountDeleted st6 ∨
              deleteMarkedAccountStep env st accountName = .cleanupFailed st6) ∧
        st6.repos.filter (fun rp => rp.accountName == accountName) = []) := by
  have hroots : ∀ m ∈ rootManifestsOfAccount st accountName,
      hasParentRefIn st.manifestManifestRefs m = false := by
    intro m hm
    have hf := (List.mem_filter.mp hm).2
    simpa using hf
  obtain ⟨hrepos, hblobs, haccts, hrefs⟩ :=
    deleteRootManifests_frame (rootManifestsOfAccount st accountName) st
  obtain ⟨hok, hcnt, hmans⟩ :=
    deleteRootManifests_spec (rootManifestsOfAccount st accountName) st hroots
  have hok' : (rootDeletionPass st accountName).2.2 = true := hok
  have hblobs' : (rootDeletionPass st accountName).1.blobs = st.blobs := hblobs
  have haccts' : (rootDeletionPass st accountName).1.accounts = st.accounts := haccts
  refine ⟨hok', hcnt, manifestsOfAccount_after_rootDeletion st accountName, ?_, ?_, ?_, ?_⟩
  · intro hlen hcount
    have hstep : deleteMarkedAccountStep env st accountName
        = .recurse (rootDeletionPass st accountName).1 := by
      unfold deleteMarkedAccountStep
      rw [hfind]
      simp only []
      rw [if_neg (by simp [hok'])]
      rw [if_pos hlen, if_pos hcount]
    refine ⟨hstep, ?_⟩
    intro fuel
    simp only [deleteMarkedAccount, hstep]
  · intro hlen hcount
    unfold deleteMarkedAccountStep
    rw [hfind]
    simp only []
    rw [if_neg (by simp [hok'])]
    rw [if_pos hlen, if_neg (by rw [hcount]; exact lt_irrefl 0)]
  · intro hlen hblobpos
    have hb2 : ((deleteReposOfAccount (rootDeletionPass st accountName).1 accountName).blobs.filter
        (fun b => b.accountName == accountName)).length > 0 := by
      show (((rootDeletionPass st accountName).1.blobs).filter
        (fun b => b.accountName == accountName)).length > 0
      rw [hblobs']
      exact hblobpos
    refine ⟨scheduleNextDeletionAttempt
        (scheduleBlobSweep (markAllBlobsForDeletion
          (deleteReposOfAccount (rootDeletionPass st accountName).1 accountName)
          accountName env.now) accountName env.now)
        accountName (env.now + 60), ?_, ?_, ?_, ?_⟩
    · unfold deleteMarkedAccountStep
      rw [hfind]
      simp only []
      rw [if_neg (by simp [hok'])]
      rw [if_neg (by rw [hlen]; exact lt_irrefl 0), if_pos hb2]
    · show ((rootDeletionPass st accountName).1.repos.filter
        (fun rp => !(rp.accountName == accountName))).filter
          (fun rp => rp.accountName == accountName) = []
      exact filter_not_filter_eq_nil _ _
    · intro b hb hbn
      have hb' : b ∈ ((rootDeletionPass st accountName).1.blobs).map
          (fun b => if b.accountName == accountName
            then { b with canBeDeletedAt := some env.now } else b) := hb
      obtain ⟨b0, hb0mem, hb0⟩ := List.mem_map.mp hb'
      by_cases hbacc : (b0.accountName == accountName) = true
      · rw [if_pos hbacc] at hb0
        rw [← hb0]
      · rw [if_neg hbacc] at hb0
        subst hb0
        exact absurd (beq_iff_eq.mpr hbn) hbacc
    · have hname' := List.find?_some hfind
      have hname : (acct.name == accountName) = true := hname'
      have hacctmem : acct ∈ st.accounts := List.mem_of_find?_eq_some hfind
      have hmem1 : acct ∈ (markAllBlobsForDeletion
          (deleteReposOfAccount (rootDeletionPass st accountName).1 accountName)
          accountName env.now).accounts := by
        show acct ∈ (rootDeletionPass st accountName).1.accounts
        rw [haccts']
        exact hacctmem
      refine ⟨{ acct with nextBlobSweepAt := some env.now, nextDeletionAttemptAt := some (env.now + 60) }, ?_, ?_, rfl, rfl⟩
      · show _ ∈ ((markAllBlobsForDeletion
            (deleteReposOfAccount (rootDeletionPass st accountName).1 accountName)
            accountName env.now).accounts.map
          (fun a => if a.name == accountName then { a with nextBlobSweepAt := some env.now }
            else a)).map
          (fun a => if a.name == accountName
            then { a with nextDeletionAttemptAt := some (env.now + 60) } else a)
        have h1 := List.mem_map_of_mem
          (fun a => if a.name == accountName then { a with nextBlobSweepAt := some env.now }
            else a) hmem1
        simp only [] at h1
        rw [if_pos hname] at h1
        have h2 := List.mem_map_of_mem
          (fun a => if a.name == accountName
            then { a with nextDeletionAttemptAt := some (env.now + 60) } else a) h1
        simp only [] at h2
        rw [if_pos hname] at h2
        exact h2
      · exact beq_iff_eq.mp hname
  · intro hlen hblobzero
    have hb2 : ((deleteReposOfAccount (rootDeletionPass st accountName).1 accountName).blobs.filter
        (fun b => b.accountName == accountName)).length = 0 := by
      show (((rootDeletionPass st accountName).1.blobs).filter
        (fun b => b.accountName == accountName)).length = 0
      rw [hblobs']
      exact hblobzero
    have hrun : ∀ res, deleteMarkedAccountStep env st accountName = res →
        (res = .accountDeleted (deleteAccountRow
            (deleteReposOfAccount (rootDeletionPass st accountName).1 accountName) accountName) ∨
         res = .cleanupFailed
            (deleteReposOfAccount (rootDeletionPass st accountName).1 accountName)) := by
      intro res hres
      rw [← hres]
      unfold deleteMarkedAccountStep
      rw [hfind]
      simp only []
      rw [if_neg (by simp [hok'])]
      rw [if_neg (by rw [hlen]; exact lt_irrefl 0)]
      rw [if_neg (by rw [hb2]; exact lt_irrefl 0)]
      cases env.cleanupOk
      · right; rfl
      · cases env.forfeitOk
        · right; rfl
        · left; rfl
    rcases hrun _ rfl with h | h
    · refine ⟨deleteAccountRow
        (deleteReposOfAccount (rootDeletionPass st accountName).1 accountName) accountName,
        Or.inl h, ?_⟩
      show ((rootDeletionPass st accountName).1.repos.filter
        (fun rp => !(rp.accountName == accountName))).filter
          (fun rp => rp.accountName == accountName) = []
      exact filter_not_filter_eq_nil _ _
    · refine ⟨deleteReposOfAccount (rootDeletionPass st accountName).1 accountName,
        Or.inr h, ?_⟩
      show ((rootDeletionPass st accountName).1.repos.filter
        (fun rp => !(rp.accountName == accountName))).filter
          (fun rp => rp.accountName == accountName) = []
      exact filter_not_filter_eq_nil _ _

/-- C10: when the account row no longer exists, the deletion task
returns success without touching the storage or federation drivers (its
pass does not depend on them) and without changing any database row. -/
theorem C10_deleted_account_noop (env env2 : JanitorEnv) (st : JanitorState)
    (accountName : String) (fuel : Nat)
    (h : ∀ a ∈ st.accounts, a.name ≠ accountName) :
    deleteMarkedAccount env (fuel + 1) st accountName = (st, true) ∧
    deleteMarkedAccountStep env st accountName = .accountGone ∧
    deleteMarkedAccountStep env st accountName = deleteMarkedAccountStep env2 st accountName := by
  have hnone : st.accounts.find? (fun a => a.name == accountName) = none := by
    rw [List.find?_eq_none]
    intro a ha
    simpa using h a ha
  have hstep : deleteMarkedAccountStep env st accountName = .accountGone := by
    unfold deleteMarkedAccountStep
    rw [hnone]
  have hstep2 : deleteMarkedAccountStep env2 st accountName = .accountGone := by
    unfold deleteMarkedAccountStep
    rw [hnone]
  refine ⟨?_, hstep, hstep.trans hstep2.symm⟩
  simp only [deleteMarkedAccount, hstep]

def demoEnv : JanitorEnv := ⟨100, true, true⟩

def demoAccount : JAccount := ⟨"acme", true, none, none⟩

def demoState : JanitorState :=
  ⟨[⟨"acme", true, none, none⟩], [⟨1, "acme"⟩], [], [], [], [⟨1, "acme", none⟩]⟩

/-- C5 witness: the state machine evaluated on a one-account state with
no manifests and one blob: the pass removes the repo, marks the blob,
arms both clocks and keeps the account row. -/
theorem C5_account_deletion_witness :
    (rootDeletionPass demoState "acme").2.2 = true ∧
    (∃ st5, deleteMarkedAccountStep demoEnv demoState "acme" = .blobsRemain st5 ∧
      st5.repos.filter (fun rp => rp.accountName == "acme") = [] ∧
      (∀ b ∈ st5.blobs, b.accountName = "acme" → b.canBeDeletedAt = some demoEnv.now) ∧
      ∃ a ∈ st5.accounts, a.name = "acme" ∧ a.nextBlobSweepAt = some demoEnv.now ∧
        a.nextDeletionAttemptAt = some (demoEnv.now + 60)) :=
  ⟨(C5_account_deletion_state_machine demoEnv demoState "acme" demoAccount (by decide) rfl).1,
   (C5_account_deletion_state_machine demoEnv demoState "acme" demoAccount
      (by decide) rfl).2.2.2.2.2.1 (by decide) (by decide)⟩

/-- C10 witness: the theorem applied to a state without the account row;
the run succeeds, leaves the state unchanged, and its pass is
independent of the storage/federation environment. -/
theorem C10_deleted_account_noop_witness :
    deleteMarkedAccount ⟨0, true, true⟩ 1
        ⟨[⟨"other", false, none, none⟩], [], [], [], [], []⟩ "ghost"
      = (⟨[⟨"other", false, none, none⟩], [], [], [], [], []⟩, true) ∧
    deleteMarkedAccountStep ⟨0, true, true⟩
        ⟨[⟨"other", false, none, none⟩], [], [], [], [], []⟩ "ghost" = .accountGone ∧
    deleteMarkedAccountStep ⟨0, true, true⟩
        ⟨[⟨"other", false, none, none⟩], [], [], [], [], []⟩ "ghost"
      = deleteMarkedAccountStep ⟨55, false, false⟩
        ⟨[⟨"other", false, none, none⟩], [], [], [], [], []⟩ "ghost" :=
  C10_deleted_account_noop ⟨0, true, true⟩ ⟨55, false, false⟩
    ⟨[⟨"other", false, none, none⟩], [], [], [], [], []⟩ "ghost" 0 (by decide)

end Keppel
